import Mathlib

/-!
Shallow embedding of the document post-processing pipeline of `md2docx.py`.

Modelling conventions:
* A document is modelled by the entities the pipeline reads or mutates:
  sections (page geometry), tables (rows of cells), inline shapes (images)
  and top-level paragraphs.  Attributes that no transformation examined here
  touches (font name/size, paragraph alignment, table alignment) are not
  carried in the state.
* `python-docx` cell mutations that append OOXML child elements
  (`w:shd` shading, `w:top`/`w:left`/... borders) are modelled as list
  appends, mirroring `tcPr.append(...)` in the source; attribute
  assignments (font colour, bold, width) are modelled as field updates.
* Machine integers are `Int`/`Nat`; Python `int(a / b)` is truncating
  division `Int.tdiv`; Python `round` (nearest, ties to even) applied to
  the quotient `a / b` is the integer function `pyRoundDiv a b`.
* Code that can raise is modelled with an explicit error outcome
  (`Except` or an error flag), matching where the source has `try/except`.
-/

namespace MD

/-- RGB colour triple, the value of `RGBColor(r, g, b)`. -/
abbrev RGB := Nat × Nat × Nat

/-- A text run: the attributes of `run.font` that the pipeline mutates. -/
structure Run where
  fontColor : Option RGB
  bold : Option Bool
deriving DecidableEq

/-- A table cell: its plain text, the appended shading fills (`w:shd`
elements), the appended border elements (one entry per side per
application), its runs and its width. -/
structure Cell where
  text : String
  shades : List String
  borderSides : List String
  runs : List Run
  width : Option Int
deriving DecidableEq

/-- A table is its rows; a row is its cells (`table.rows[i].cells`). -/
abbrev Table := List (List Cell)

/-- An inline shape: picture flag (`shape.type` being PICTURE or
LINKED_PICTURE) and current width/height in EMU. -/
structure Shape where
  isPicture : Bool
  width : Int
  height : Int
deriving DecidableEq

/-- A section's page geometry.  `none` models an unset value; Python's
`x or default` also replaces a present `0` (falsy), see `orDefault`. -/
structure Sect where
  pageWidth : Option Nat
  leftMargin : Option Nat
  rightMargin : Option Nat
deriving DecidableEq

/-- A top-level paragraph: its text and whether it carries a page break. -/
structure Para where
  text : String
  pageBreak : Bool
deriving DecidableEq

deriving instance DecidableEq for Except

/-- Python `x or default` where `x` is an optional nonnegative length:
`None` and `0` are both falsy and replaced by the default. -/
def orDefault (x : Option Nat) (d : Nat) : Nat :=
  match x with
  | none => d
  | some 0 => d
  | some k => k

/-- EMU value of `Mm(210)`, the A4-width fallback in the source. -/
def a4WidthEmu : Nat := 7560000

/-- EMU value of `Cm(1)`, the margin fallback in the source. -/
def cm1Emu : Nat := 360000

/-- Usable content width `page_width - left_margin - right_margin` with the
source's fallbacks, as used by both `autofit_tables_to_window` and
`autofit_images_to_window` (identical default constants in both). -/
def usableWidthEmu (s : Sect) : Int :=
  (orDefault s.pageWidth a4WidthEmu : Int)
    - (orDefault s.leftMargin cm1Emu : Int)
    - (orDefault s.rightMargin cm1Emu : Int)

/-! ### String scanning helpers (Python `in`, `re.search` on literals) -/

/-- First index at which `needle` occurs in `hay` (Python `str.find` /
leftmost literal match), or `none`. -/
def findSub (needle : List Char) : List Char → Option Nat
  | [] => if needle.isPrefixOf ([] : List Char) then some 0 else none
  | c :: t =>
    if needle.isPrefixOf (c :: t) then some 0
    else (findSub needle t).map (· + 1)

/-- Python `needle in s` (substring containment). -/
def containsStr (needle s : String) : Bool :=
  (findSub needle.data s.data).isSome

/-- ASCII whitespace, the characters `\s` / `str.strip` treat as blank in
the source's (ASCII) texts. -/
def isWs (c : Char) : Bool :=
  c == ' ' || c == '\n' || c == '\t' || c == '\r'

/-- Python `str.strip()` on ASCII text: drop leading and trailing
whitespace. -/
def trimStr (s : String) : String :=
  ⟨((s.data.dropWhile isWs).reverse.dropWhile isWs).reverse⟩

/-- Lower-case an ASCII character, as Python `str.lower()` does on the
source's ASCII header texts. -/
def lowerChar (c : Char) : Char :=
  if 'A' ≤ c ∧ c ≤ 'Z' then Char.ofNat (c.toNat + 32) else c

/-- Python `str.lower()` on ASCII text. -/
def lowerStr (s : String) : String :=
  ⟨s.data.map lowerChar⟩

/-! ### Table classifier (`CS.is_*_table`, lines 504-562) -/

/-- Header signature extraction (line 251):
`[cell.text.strip() for cell in header_cells if cell.text.strip() != '']`. -/
def sigOf (row : List Cell) : List String :=
  (row.map (fun c => trimStr c.text)).filter (fun s => s != "")

/-- The literal header sequences of `is_azure_table`. -/
def azureHeaders : List (List String) :=
  [["Failing Controls - UGC", "Failing Controls - ZenPay"],
   ["Control States:", "UGC", "ZenPay"],
   ["Resource States:", "UGC", "ZenPay"]]

/-- `CS.is_azure_table`: membership in the literal list, or the shape
heuristic `len(header_texts) == 6 and header_texts[3] == ''`. -/
def isAzure (h : List String) : Bool :=
  azureHeaders.contains h || (h.length == 6 && h.getD 3 "#" == "")

/-- The literal header sequence of `is_wpengine_table`. -/
def wpengineTexts : List String :=
  ["Plugins updated", "Domains secured", "Platform enhancements", "Attacks blocked"]

/-- `CS.is_wpengine_table`: exact sequence equality. -/
def isWpengine (h : List String) : Bool :=
  h == wpengineTexts

/-- The literal header sequences of `is_cisco_table`. -/
def ciscoHeaders : List (List String) :=
  [["Total Data Transferred", "Total Data - DOWNLOADED", "Total Data - UPLOADED",
    "Total Unique Clients", "Average of clients per day", "Average usage per client"],
   ["Top clients by usage", "Usage", "Usage", "Top Blocked Sites by URL", "Category", "Sites"]]

/-- `CS.is_cisco_table`: membership in the literal list. -/
def isCisco (h : List String) : Bool :=
  ciscoHeaders.contains h

/-- The literal header sequences of `is_barracuda_table`. -/
def barracudaHeaders : List (List String) :=
  [["Corporate", "Email Blocked", "BRBL", "SPAM", "BRTS", "Virus", "ATP"],
   ["Payments", "Email Blocked", "BRBL", "SPAM", "BRTS", "Virus", "ATP"],
   ["Prepaid", "Email Blocked", "BRBL", "SPAM", "BRTS", "Virus", "ATP"],
   ["SmartCentral", "Email Blocked", "BRBL", "SPAM", "BRTS", "Virus", "ATP"],
   ["Summary", "Email Blocked", "BRBL", "SPAM", "BRTS", "Virus", "ATP",
    "Blocked Email%", "Blocked ATP%"]]

/-- `CS.is_barracuda_table`: membership in the literal list. -/
def isBarracuda (h : List String) : Bool :=
  barracudaHeaders.contains h

/-- The literal header sequences of `is_websites_table`. -/
def websitesHeaders : List (List String) :=
  [["Corporate", "Avg daily traffic", "WPScan Vulns", "Site WAF", "Plugins", "Themes", "WP ver", "PHP ver"],
   ["Payments", "Avg daily traffic", "WPScan Vulns", "Site WAF", "Plugins", "Themes", "WP ver", "PHP ver"],
   ["Prepaid", "Avg daily traffic", "WPScan Vulns", "Site WAF", "Plugins", "Themes", "WP ver", "PHP ver"],
   ["SmartCentral", "Avg daily traffic", "WPScan Vulns", "Site WAF", "Plugins", "Themes", "WP ver", "PHP ver"]]

/-- `CS.is_websites_table`: membership in the literal list. -/
def isWebsites (h : List String) : Bool :=
  websitesHeaders.contains h

/-- The expected header words of `is_summary_table` (note `"Coding"`,
line 507 of the source). -/
def summaryHeader : List String :=
  ["Business", "Coding", "Item", "Notes", "Status"]

/-- `CS.is_summary_table`: every expected header word occurs among the
signature entries up to strip and lower-casing (subset matching). -/
def isSummary (h : List String) : Bool :=
  summaryHeader.all (fun expected =>
    h.any (fun x => lowerStr (trimStr x) == lowerStr expected))

/-- The closed set of table categories; `none` means unmatched. -/
inductive Category where
  | azure | wpengine | cisco | barracuda | websites | summary | none
deriving DecidableEq

/-- The classification induced by the `if/elif` chain of
`apply_custom_styles` (lines 252-269). -/
def classify (h : List String) : Category :=
  if isAzure h then .azure
  else if isWpengine h then .wpengine
  else if isCisco h then .cisco
  else if isBarracuda h then .barracuda
  else if isWebsites h then .websites
  else if isSummary h then .summary
  else .none

/-- The priority order of the `if/elif` chain. -/
def catOrder : List Category :=
  [.azure, .wpengine, .cisco, .barracuda, .websites, .summary]

/-- The predicate each category uses. -/
def catPred : Category → List String → Bool
  | .azure => isAzure
  | .wpengine => isWpengine
  | .cisco => isCisco
  | .barracuda => isBarracuda
  | .websites => isWebsites
  | .summary => isSummary
  | .none => fun _ => false

/-! ### Cell styling (`TableStyler`, lines 349-402) -/

/-- `set_cell_background_color`: appends a fresh `w:shd` element carrying
the fill to the cell's properties (`tcPr.append`), it does not replace an
existing one. -/
def setCellBackgroundColor (c : Cell) (fill : String) : Cell :=
  { c with shades := c.shades ++ [fill] }

/-- `set_font_color`: assigns the colour on every run of the cell. -/
def setFontColorCell (c : Cell) (col : RGB) : Cell :=
  { c with runs := c.runs.map (fun r => { r with fontColor := some col }) }

/-- `set_cell_borders`: appends four fresh border elements (top, left,
bottom, right; fixed single/4/0/auto attributes) to the cell's
properties. -/
def setCellBorders (c : Cell) : Cell :=
  { c with borderSides := c.borderSides ++ ["top", "left", "bottom", "right"] }

/-- `style_table_row`: background colour, font colour, then borders, on
every cell of the row (lines 392-396). -/
def styleTableRow (row : List Cell) (fill : String) (col : RGB) : List Cell :=
  row.map (fun c => setCellBorders (setFontColorCell (setCellBackgroundColor c fill) col))

/-- `style_table_with_alternating_rows` (lines 398-402): header row gets
the header fill, content row `i` (0-based among content rows) gets
`content_fill_1` when `i` is even, else `content_fill_2`.  The source
would raise on a rowless table (`table.rows[0]`); every call site reaches
it only with at least one row, so the `[]` case is unreachable there. -/
def styleTableWithAlternatingRows (t : Table) (headerFill : String)
    (headerFont : RGB) (fill1 fill2 : String) (contentFont : RGB) : Table :=
  match t with
  | [] => []
  | r0 :: rest =>
    styleTableRow r0 headerFill headerFont ::
      rest.enum.map (fun p =>
        styleTableRow p.2 (if p.1 % 2 == 0 then fill1 else fill2) contentFont)

/-- `CS.style_azure_table` with its literal colours. -/
def styleAzureTable (t : Table) : Table :=
  styleTableWithAlternatingRows t "0078D7" (255, 255, 255) "DEEBF7" "B3C6E7" (0, 0, 0)

/-- `CS.style_wpengine_table` with its literal colours. -/
def styleWpengineTable (t : Table) : Table :=
  styleTableWithAlternatingRows t "8DB600" (255, 255, 255) "ECF0E7" "D9EAD3" (0, 0, 0)

/-- `CS.style_cisco_table` with its literal colours. -/
def styleCiscoTable (t : Table) : Table :=
  styleTableWithAlternatingRows t "86A697" (0, 0, 0) "ACC6B5" "CFDED6" (0, 0, 0)

/-- `CS.style_barracuda_table` with its literal colours. -/
def styleBarracudaTable (t : Table) : Table :=
  styleTableWithAlternatingRows t "006888" (255, 255, 255) "E1EFF6" "D9E8F2" (0, 0, 0)

/-- `CS.style_websites_table` with its literal colours. -/
def styleWebsitesTable (t : Table) : Table :=
  styleTableWithAlternatingRows t "7A9DAB" (0, 0, 0) "A8C0CF" "D0E1EC" (0, 0, 0)

/-- `CS.style_summary_table` with its literal colours. -/
def styleSummaryTable (t : Table) : Table :=
  styleTableWithAlternatingRows t "FFBF00" (0, 0, 0) "FFD700" "FFECB3" (0, 0, 0)

/-- The styler selected for a category; `Category.none` leaves the table
untouched (no `else` branch in the chain). -/
def styleByCat : Category → Table → Table
  | .azure, t => styleAzureTable t
  | .wpengine, t => styleWpengineTable t
  | .cisco, t => styleCiscoTable t
  | .barracuda, t => styleBarracudaTable t
  | .websites, t => styleWebsitesTable t
  | .summary, t => styleSummaryTable t
  | .none, t => t

/-- The body of the `for table in self.doc.tables` loop of
`apply_custom_styles`: reading `table.rows[0]` raises `IndexError` on a
rowless table; otherwise the `if/elif` chain styles by the header
signature. -/
def styleTableInChain (t : Table) : Except Unit Table :=
  match t with
  | [] => .error ()
  | r0 :: _ => .ok (styleByCat (classify (sigOf r0)) t)

/-- `StyleApplier.apply_custom_styles` (lines 247-271): the single
`try/except` sits outside the per-table loop, so the first raising table
stops the stage, leaving it and every later table unstyled. -/
def applyCustomStylesStage : List Table → List Table
  | [] => []
  | t :: rest =>
    match styleTableInChain t with
    | .error _ => t :: rest
    | .ok t' => t' :: applyCustomStylesStage rest

/-! ### Table width autofit (`TableStyler.autofit_tables_to_window`,
lines 283-301) -/

/-- `cell.width = int(total_width / len(row.cells))` for each cell of a
row; Python `int()` on the true quotient truncates toward zero
(`Int.tdiv`).  An empty row runs the loop body zero times, so the
division by `len(row.cells)` never executes for it. -/
def setRowWidths (u : Int) (row : List Cell) : List Cell :=
  row.map (fun c => { c with width := some (u.tdiv row.length) })

/-- Bold every run of a cell (`run.font.bold = True`). -/
def boldCell (c : Cell) : Cell :=
  { c with runs := c.runs.map (fun r => { r with bold := some true }) }

/-- `apply_bold_to_headers` (lines 303-308): bolds every run of the first
row; `table.rows[0]` raises `IndexError` on a rowless table. -/
def applyBoldToHeaders : Table → Except Unit Table
  | [] => .error ()
  | r0 :: rest => .ok (r0.map boldCell :: rest)

/-- `autofit_tables_to_window` (lines 283-301): per table, read
`doc.sections[0]` (raising `IndexError` when there is no section), set
every cell's width to the truncated share of the usable width, then bold
the header row.  The `try/except` wraps the whole loop, so a raise leaves
the remaining tables untouched; a raise inside `apply_bold_to_headers`
happens after the widths of that table were already assigned in place.
Paragraph centering and table alignment, which no claim concerns, are not
carried in the state. -/
def autofitTablesStage (secs : List Sect) : List Table → List Table
  | [] => []
  | t :: rest =>
    match secs with
    | [] => t :: rest
    | sec :: _ =>
      let t' := t.map (setRowWidths (usableWidthEmu sec))
      match applyBoldToHeaders t' with
      | .error _ => t' :: rest
      | .ok t'' => t'' :: autofitTablesStage secs rest

/-- The action of one iteration of the table loop on a table with at
least one row: widths set on every row, then the header row bolded. -/
def autofitOneTable (u : Int) (t : Table) : Table :=
  match t.map (setRowWidths u) with
  | [] => []
  | r :: rest => r.map boldCell :: rest

/-! ### Image autofit (`ImageResizer.autofit_images_to_window`,
lines 161-178) -/

/-- Python `round` on the exact quotient `a / b` for `b > 0`: nearest
integer, ties to even (banker's rounding).  The source computes
`round(new_width * (float(h) / float(w)))`; the value is modelled as the
exact rational `(new_width * h) / w`. -/
def pyRoundDiv (a b : Int) : Int :=
  if 2 * (a - b * (a / b)) < b then a / b
  else if b < 2 * (a - b * (a / b)) then a / b + 1
  else if (a / b) % 2 == 0 then a / b else a / b + 1

/-- The body of the shape loop: `shape.width = usable`, `shape.height =
round(new_width * aspect)` with the aspect taken from the shape's current
size. -/
def resizeShape (u : Int) (s : Shape) : Shape :=
  { s with width := u, height := pyRoundDiv (u * s.height) s.width }

/-- One pass of the inner `for shape in self.doc.inline_shapes` loop for
a fixed section: pictures with zero width raise `ZeroDivisionError` in
`float(shape.height) / float(shape.width)`; the raise aborts the loop
there, so earlier shapes keep their already-assigned new sizes and later
shapes stay untouched.  Returns the shapes and an error flag. -/
def resizePass (u : Int) : List Shape → List Shape × Bool
  | [] => ([], false)
  | s :: rest =>
    if s.isPicture then
      if s.width == 0 then (s :: rest, true)
      else
        let out := resizePass u rest
        (resizeShape u s :: out.1, out.2)
    else
      let out := resizePass u rest
      (s :: out.1, out.2)

/-- `autofit_images_to_window`: the outer loop runs over every section in
order, re-resizing all inline shapes each time; the method has no
`try/except` of its own, so an exception propagates to the caller. -/
def autofitImages : List Sect → List Shape → List Shape × Bool
  | [], l => (l, false)
  | sec :: rest, l =>
    let out := resizePass (usableWidthEmu sec) l
    if out.2 then (out.1, true) else autofitImages rest out.1

/-! ### TOC locator and page breaks (`SectionManager`, lines 181-238) -/

/-- The start-marker literal of `_find_toc_section`. -/
def tocStartLit : List Char := "# Table of Contents".data

/-- The end-marker literal of `_find_toc_section`. -/
def tocEndLit : List Char := "\n\n---".data

/-- `_find_toc_section` (lines 223-231) on the `'\n'`-joined paragraph
texts: the leftmost match of `\s*# Table of Contents` starts where the
whitespace run immediately before the first literal occurrence starts and
ends after the literal; the end marker is the first `\n\n---` in the text
after that; the result is `(start_match.start, start_match.end +
end_match.end)` in character offsets, or `(-1, -1)`. -/
def findTocSection (texts : List String) : Int × Int :=
  let cs := (String.intercalate "\n" texts).data
  match findSub tocStartLit cs with
  | Option.none => (-1, -1)
  | some i0 =>
    let wb := ((cs.take i0).reverse.takeWhile isWs).length
    let startEnd := i0 + tocStartLit.length
    match findSub tocEndLit (cs.drop startEnd) with
    | Option.none => (-1, -1)
    | some j => ((i0 : Int) - wb, (startEnd + j + tocEndLit.length : Nat))

/-- The paragraph inserted by `insert_paragraph_before()` plus
`_add_page_break_to_paragraph`: empty text, one page-break run. -/
def breakPara : Para := { text := "", pageBreak := true }

/-- The loop of `add_page_break_before_section`: the snapshot of the
original paragraphs is walked in order; for each one the code compares its
current element index inside the body (`getparent().index(...)`) — which
insertions so far have shifted — against the character-offset interval,
inclusive at both ends; a non-skipped paragraph whose text contains one of
the titles gets a break paragraph inserted before it, shifting all later
indices by one. -/
def breakGo (tocStart tocEnd : Int) (titles : List String) :
    List Para → Nat → List Para
  | [], _ => []
  | p :: rest, idx =>
    if tocStart ≤ (idx : Int) ∧ (idx : Int) ≤ tocEnd then
      p :: breakGo tocStart tocEnd titles rest (idx + 1)
    else if titles.any (fun t => containsStr t p.text) then
      breakPara :: p :: breakGo tocStart tocEnd titles rest (idx + 2)
    else
      p :: breakGo tocStart tocEnd titles rest (idx + 1)

/-- `add_page_break_before_section` (lines 209-221): locate the TOC
character interval, then walk the paragraphs.  The body is modelled as
containing exactly the top-level paragraphs, so a paragraph's element
index starts out as its list position. -/
def addPageBreakBeforeSection (titles : List String) (paras : List Para) :
    List Para :=
  let toc := findTocSection (paras.map (fun p => p.text))
  breakGo toc.1 toc.2 titles paras 0

/-- The module-level `CUSTOM_TEXT` list (line 17) passed as the section
titles. -/
def customText : List String :=
  ["1.Azure", "2.AWS", "3.WPEngine", "4.FraudWatch", "5.Cisco",
   "6.Barracuda", "7.Websites", "8.Summary"]

/-- `keep_sections_together` (lines 186-207): for a standard document the
index lookup `paragraph._element.getparent().getparent().index(...)` asks
the document root for the position of a paragraph that is a child of the
body, not of the root, so lxml raises `ValueError` on the first paragraph
and the method's own `except` swallows it — the method never changes the
paragraphs. -/
def keepSectionsTogether (paras : List Para) : List Para := paras

/-! ### Pipeline orchestrator (`DocxProcessor.post_process_docx`,
lines 48-75) -/

/-- The document state the pipeline reads or mutates. -/
structure Doc where
  sections : List Sect
  tables : List Table
  shapes : List Shape
  paras : List Para
  saved : Bool
deriving DecidableEq

/-- `DocumentFormatter.set_margins` (lines 116-121) as called by the
pipeline: every section's margins are overwritten with `Cm(1)`. -/
def setMarginsCm1 (s : Sect) : Sect :=
  { s with leftMargin := some cm1Emu, rightMargin := some cm1Emu }

/-- `post_process_docx` (lines 48-75).  One `try/except` wraps the whole
body.  `set_document_font`, `modify_document_styles` (which catch their
own exceptions and touch only attributes outside this state) are omitted;
`set_margins` mutates the sections; the table stages and the section
manager catch internally and always return; `autofit_images_to_window`
has no handler of its own, so its exception reaches the outer `except`,
skipping the section manager and `doc.save`.  `saveOk` models whether
`doc.save` succeeds; its failure is also caught by the outer `except`. -/
def postProcess (saveOk : Bool) (d : Doc) : Doc :=
  let d1 := { d with sections := d.sections.map setMarginsCm1 }
  let d2 := { d1 with tables := autofitTablesStage d1.sections d1.tables }
  let d3 := { d2 with tables := applyCustomStylesStage d2.tables }
  let imgOut := autofitImages d3.sections d3.shapes
  let d4 := { d3 with shapes := imgOut.1 }
  if imgOut.2 then d4
  else
    let d5 := { d4 with paras := keepSectionsTogether d4.paras }
    let d6 := { d5 with paras := addPageBreakBeforeSection customText d5.paras }
    if saveOk then { d6 with saved := true } else d6

/-- Character offset of the `k`-th paragraph inside the `'\n'`-joined
text that `_find_toc_section` scans: the lengths of the paragraphs before
it plus one separator character each. -/
def paraCharOffset (texts : List String) (k : Nat) : Nat :=
  ((texts.take k).map String.length).sum + k

/-- The five-paragraph document exercising the TOC interval logic:
markers span character offsets `[0, 24)`; the last paragraph matches a
configured title, sits at character offset `27` (outside the interval)
but at element index `4` (inside it). -/
def c1Paras : List Para :=
  [⟨"# Table of Contents", false⟩, ⟨"", false⟩, ⟨"---", false⟩,
   ⟨"x", false⟩, ⟨"2.AWS Security", false⟩]

/-- A document whose only inline shape is a zero-width picture and whose
only paragraph would receive a page break if the section-break stage
ran. -/
def c3Doc : Doc :=
  { sections := [⟨some 20000, some 1000, some 1000⟩],
    tables := [], shapes := [⟨true, 0, 5⟩],
    paras := [⟨"1.Azure overview", false⟩], saved := false }


/-! ## Claim theorems -/

/-- C1. The claim says the break inserter skips exactly the matching
paragraphs whose text offset lies in the TOC interval and breaks before
every matching paragraph outside it.  On `c1Paras` the TOC interval is
`[0, 24)` in character offsets and the matching paragraph `"2.AWS
Security"` sits at character offset `27`, outside it — yet the code
compares the paragraph's element index (`4`, which lies inside `[0, 24]`)
against the character offsets, skips every paragraph, and inserts no
break at all: the stage returns the document unchanged. -/
theorem c1_index_offset_mismatch :
    findTocSection (c1Paras.map (fun p => p.text)) = (0, 24)
    ∧ paraCharOffset (c1Paras.map (fun p => p.text)) 4 = 27
    ∧ customText.any (fun t => containsStr t ((c1Paras.getD 4 breakPara).text)) = true
    ∧ addPageBreakBeforeSection customText c1Paras = c1Paras := by
  refine ⟨by decide, by decide, by decide, by decide⟩

/-- C2 counterexample. The claimed header `["Business", "Category",
"Item", "Notes", "Status"]` does not classify `summary`: the source's
`is_summary_table` expects the word `"Coding"`, so this header matches no
predicate and classifies `none`. -/
theorem c2_counterexample :
    classify ["Business", "Category", "Item", "Notes", "Status"] = Category.none := by
  decide

/-- C2 amended. The wpengine signature classifies `wpengine`; the exact
header `["Business", "Coding", "Item", "Notes", "Status"]` (the literal
the source compares against) classifies `summary`; `["foo", "bar"]`
classifies `none` and a table with that header passes through the styling
chain unchanged. -/
theorem c2_scenarios :
    classify ["Plugins updated", "Domains secured", "Platform enhancements",
      "Attacks blocked"] = Category.wpengine
    ∧ classify ["Business", "Coding", "Item", "Notes", "Status"] = Category.summary
    ∧ classify ["foo", "bar"] = Category.none
    ∧ styleTableInChain [[⟨"foo", [], [], [], Option.none⟩, ⟨"bar", [], [], [], Option.none⟩]]
        = .ok [[⟨"foo", [], [], [], Option.none⟩, ⟨"bar", [], [], [], Option.none⟩]] := by
  refine ⟨by decide, by decide, by decide, by decide⟩

/-- C3. The claim says an exception in any single stage is caught and all
remaining stages still execute, only Save aborting the run.  On `c3Doc`
the image-autofit stage raises (zero-width picture); the exception is
caught only by the single outer handler of `post_process_docx`, so the
section-break stage never runs (the paragraph that the break inserter
would change stays unchanged) and the document is never saved even though
saving itself would succeed. -/
theorem c3_image_exception_aborts_pipeline :
    (autofitImages (c3Doc.sections.map setMarginsCm1) c3Doc.shapes).2 = true
    ∧ (postProcess true c3Doc).paras = c3Doc.paras
    ∧ (postProcess true c3Doc).saved = false
    ∧ addPageBreakBeforeSection customText c3Doc.paras ≠ c3Doc.paras := by
  refine ⟨by decide, by decide, by decide, by decide⟩

/-- C5. The claim says a zero-width image is skipped and the stage
completes for the remaining images.  Instead `float(shape.height) /
float(shape.width)` raises `ZeroDivisionError` at the zero-width picture:
the stage reports the error and the following picture is left at its
original size. -/
theorem c5_zero_width_raises :
    autofitImages [⟨some 20000, some 1000, some 1000⟩]
        [⟨true, 0, 5⟩, ⟨true, 100, 50⟩]
      = ([⟨true, 0, 5⟩, ⟨true, 100, 50⟩], true) := by
  decide

/-- C6 counterexample. Applying the azure category styling twice to a
one-cell table does not equal applying it once: each application appends
a fresh shading element and four fresh border elements to the cell. -/
theorem c6_counterexample :
    styleAzureTable (styleAzureTable [[⟨"", [], [], [], Option.none⟩]])
      ≠ styleAzureTable [[⟨"", [], [], [], Option.none⟩]] := by
  decide

/-- C6 amended. Re-application of the row styling is not idempotent: each
application appends one shading element and four border elements to every
cell (they are accumulated, not overwritten), so the twice-styled state
always differs from the once-styled state; only the font colour
assignment overwrites and is idempotent. -/
theorem c6_styling_appends (c : Cell) (fill : String) (col : RGB) :
    styleTableRow (styleTableRow [c] fill col) fill col
      = [{ text := c.text,
           shades := (c.shades ++ [fill]) ++ [fill],
           borderSides := (c.borderSides ++ ["top", "left", "bottom", "right"])
             ++ ["top", "left", "bottom", "right"],
           runs := c.runs.map (fun r => { r with fontColor := some col }),
           width := c.width }]
    ∧ styleTableRow [c] fill col
      = [{ text := c.text,
           shades := c.shades ++ [fill],
           borderSides := c.borderSides ++ ["top", "left", "bottom", "right"],
           runs := c.runs.map (fun r => { r with fontColor := some col }),
           width := c.width }]
    ∧ styleTableRow (styleTableRow [c] fill col) fill col ≠ styleTableRow [c] fill col
    ∧ setFontColorCell (setFontColorCell c col) col = setFontColorCell c col := by
  refine ⟨?_, ?_, ?_, ?_⟩
  · simp [styleTableRow, setCellBorders, setFontColorCell, setCellBackgroundColor,
      List.map_map]
  · simp [styleTableRow, setCellBorders, setFontColorCell, setCellBackgroundColor]
  · intro h
    have h2 := congrArg (fun l => ((l.headD c).shades).length) h
    simp [styleTableRow, setCellBorders, setFontColorCell, setCellBackgroundColor] at h2
  · simp [setFontColorCell, List.map_map]


/-- C4. Classification is first-match in the fixed order azure, wpengine,
cisco, barracuda, websites, summary: `classify` agrees with taking the
first category in `catOrder` whose predicate holds (`none` when no
predicate holds), and a table whose signature matches no predicate passes
through the styling chain unchanged. -/
theorem c4_first_match_wins :
    (∀ h : List String,
      classify h = (catOrder.find? (fun c => catPred c h)).getD Category.none)
    ∧ ∀ (r0 : List Cell) (rest : List (List Cell)),
        classify (sigOf r0) = Category.none →
        styleTableInChain (r0 :: rest) = .ok (r0 :: rest) := by
  constructor
  · intro h
    cases hA : isAzure h <;> cases hW : isWpengine h <;> cases hC : isCisco h
      <;> cases hB : isBarracuda h <;> cases hWe : isWebsites h
      <;> cases hS : isSummary h
      <;> simp [classify, catOrder, catPred, List.find?, hA, hW, hC, hB, hWe, hS]
  · intro r0 rest hnone
    simp [styleTableInChain, hnone, styleByCat]

/-- C4 witness: the first-match characterization and the
unmatched-unstyled property instantiated at a concrete header. -/
theorem c4_witness :
    (classify ["xyz"] = (catOrder.find? (fun c => catPred c ["xyz"])).getD Category.none)
    ∧ styleTableInChain [[⟨"xyz", [], [], [], Option.none⟩]]
        = .ok [[⟨"xyz", [], [], [], Option.none⟩]] :=
  ⟨c4_first_match_wins.1 ["xyz"],
   c4_first_match_wins.2 [⟨"xyz", [], [], [], Option.none⟩] [] (by decide)⟩

/-- C9. On any table with a header row the classify-and-style step never
raises, whatever the remaining rows look like (ragged rows included): it
returns the table styled by the classification of the header signature;
a row whose texts are all blank yields the empty signature and the table
passes through unchanged; the empty signature classifies `none`. -/
theorem c9_predicates_total (r0 : List Cell) (rest : List (List Cell)) :
    styleTableInChain (r0 :: rest)
      = .ok (styleByCat (classify (sigOf r0)) (r0 :: rest))
    ∧ (sigOf r0 = [] → styleTableInChain (r0 :: rest) = .ok (r0 :: rest))
    ∧ classify [] = Category.none := by
  refine ⟨rfl, ?_, by decide⟩
  intro hsig
  have hcl : classify ([] : List String) = Category.none := by decide
  simp [styleTableInChain, hsig, hcl, styleByCat]

/-- C9 witness: a one-cell table whose header text is blank is classified
without an error and left unchanged. -/
theorem c9_witness :
    styleTableInChain [[⟨" ", [], [], [], Option.none⟩]]
      = .ok [[⟨" ", [], [], [], Option.none⟩]]
    ∧ classify [] = Category.none :=
  ⟨(c9_predicates_total [⟨" ", [], [], [], Option.none⟩] []).2.1 (by decide),
   (c9_predicates_total [⟨" ", [], [], [], Option.none⟩] []).2.2⟩

/-- C10. The `try/except` of `apply_custom_styles` sits outside the
per-table loop: when a rowless table (whose `table.rows[0]` raises) is
reached, every table before it has been styled by its classification and
the rowless table together with every table after it is left exactly as
it was — styling failure isolation is per stage, not per table. -/
theorem c10_handler_outside_loop (pre post : List Table)
    (hpre : ∀ t ∈ pre, t ≠ ([] : Table)) :
    applyCustomStylesStage (pre ++ ([] : Table) :: post)
      = pre.map (fun t => styleByCat (classify (sigOf (t.headD []))) t)
        ++ ([] : Table) :: post := by
  induction pre with
  | nil => simp [applyCustomStylesStage, styleTableInChain]
  | cons t pre' ih =>
    have ht : t ≠ ([] : Table) := hpre t (List.mem_cons_self ..)
    obtain ⟨r0, rest, rfl⟩ : ∃ r0 rest, t = r0 :: rest := by
      cases t with
      | nil => exact absurd rfl ht
      | cons a b => exact ⟨a, b, rfl⟩
    simp [applyCustomStylesStage, styleTableInChain,
      ih (fun u hu => hpre u (List.mem_cons_of_mem _ hu))]

/-- C10 witness: with one well-formed table before a rowless table and
one after it, the stage styles the first and leaves the rowless table and
the one after it untouched. -/
theorem c10_witness :
    applyCustomStylesStage
        ([[[⟨"h", [], [], [], Option.none⟩]]]
          ++ ([] : Table) :: [[[⟨"p", [], [], [], Option.none⟩]]])
      = [[[⟨"h", [], [], [], Option.none⟩]]].map
          (fun t => styleByCat (classify (sigOf (t.headD []))) t)
        ++ ([] : Table) :: [[[⟨"p", [], [], [], Option.none⟩]]] :=
  c10_handler_outside_loop _ _ (by decide)


theorem autofitTablesStage_eq_map (sec : Sect) (srest : List Sect)
    (tables : List Table) (hne : ∀ t ∈ tables, t ≠ ([] : Table)) :
    autofitTablesStage (sec :: srest) tables
      = tables.map (autofitOneTable (usableWidthEmu sec)) := by
  induction tables with
  | nil => rfl
  | cons t rest ih =>
    have ht : t ≠ ([] : Table) := hne t (List.mem_cons_self ..)
    obtain ⟨r0, trest, rfl⟩ : ∃ r0 trest, t = r0 :: trest := by
      cases t with
      | nil => exact absurd rfl ht
      | cons a b => exact ⟨a, b, rfl⟩
    simp [autofitTablesStage, applyBoldToHeaders, autofitOneTable,
      ih (fun u hu => hne u (List.mem_cons_of_mem _ hu))]

theorem autofitOneTable_cell_width (u : Int) (t : Table) :
    ∀ row ∈ autofitOneTable u t, ∀ c ∈ row,
      c.width = some (u.tdiv row.length) := by
  cases t with
  | nil => intro row hrow; simp [autofitOneTable] at hrow
  | cons r0 trest =>
    intro row hrow c hc
    simp only [autofitOneTable, List.map_cons] at hrow
    rcases List.mem_cons.mp hrow with hhead | htail
    · subst hhead
      obtain ⟨c0, hc0, rfl⟩ := List.mem_map.mp hc
      obtain ⟨c1, hc1, rfl⟩ := List.mem_map.mp hc0
      simp [boldCell, setRowWidths, List.length_map]
    · obtain ⟨r, hr, rfl⟩ := List.mem_map.mp htail
      obtain ⟨c1, hc1, rfl⟩ := List.mem_map.mp hc
      simp [setRowWidths, List.length_map]

theorem tdiv_share_bounds (u : Int) (n : Nat) (hu : 0 ≤ u) (hn : 0 < n) :
    (n : Int) * u.tdiv n ≤ u ∧ u < (n : Int) * (u.tdiv n + 1) := by
  have hn' : (0 : Int) < n := by exact_mod_cast hn
  rw [Int.tdiv_eq_ediv hu (le_of_lt hn')]
  have h1 := Int.ediv_add_emod u n
  have h2 := Int.emod_nonneg u (ne_of_gt hn')
  have h3 := Int.emod_lt_of_pos u hn'
  constructor
  · linarith
  · have hx : (n : Int) * (u / n + 1) = n * (u / n) + n := by ring
    rw [hx]; linarith

/-- C7. With at least one section and no rowless table, after the table
autofit stage every cell of a row of `n` cells has width
`trunc(usable_width / n)` computed from the first section, the row total
`n * trunc(usable_width / n)` never exceeds the usable width, and the
width is within one unit of the exact share
(`usable < n * (trunc + 1)`). -/
theorem c7_cell_widths (sec : Sect) (srest : List Sect) (tables : List Table)
    (hne : ∀ t ∈ tables, t ≠ ([] : Table)) (hu : 0 ≤ usableWidthEmu sec)
    (i j k : Nat) (t' : Table) (row : List Cell) (c : Cell) (n : Nat)
    (hti : (autofitTablesStage (sec :: srest) tables).get? i = some t')
    (hrj : t'.get? j = some row) (hck : row.get? k = some c)
    (hn : row.length = n) :
    c.width = some ((usableWidthEmu sec).tdiv n)
    ∧ (n : Int) * (usableWidthEmu sec).tdiv n ≤ usableWidthEmu sec
    ∧ usableWidthEmu sec < (n : Int) * ((usableWidthEmu sec).tdiv n + 1) := by
  subst hn
  have ht' := List.get?_mem hti
  have hrow := List.get?_mem hrj
  have hc := List.get?_mem hck
  rw [autofitTablesStage_eq_map sec srest tables hne] at ht'
  obtain ⟨t0, _, rfl⟩ := List.mem_map.mp ht'
  have hw := autofitOneTable_cell_width (usableWidthEmu sec) t0 row hrow c hc
  have hpos : 0 < row.length := List.length_pos.mpr (List.ne_nil_of_mem hc)
  exact ⟨hw, (tdiv_share_bounds _ _ hu hpos).1, (tdiv_share_bounds _ _ hu hpos).2⟩

/-- C7 witness: page width 21000, margins 1000 each side, a 2-column
table: the cell width is `trunc(19000 / 2) = 9500` and the bounds hold. -/
theorem c7_witness :
    (⟨"a", [], [], [], some 9500⟩ : Cell).width
      = some ((usableWidthEmu ⟨some 21000, some 1000, some 1000⟩).tdiv 2)
    ∧ ((2 : Nat) : Int) * (usableWidthEmu ⟨some 21000, some 1000, some 1000⟩).tdiv 2
        ≤ usableWidthEmu ⟨some 21000, some 1000, some 1000⟩
    ∧ usableWidthEmu ⟨some 21000, some 1000, some 1000⟩
        < ((2 : Nat) : Int) * ((usableWidthEmu ⟨some 21000, some 1000, some 1000⟩).tdiv 2 + 1) :=
  c7_cell_widths ⟨some 21000, some 1000, some 1000⟩ []
    [[[⟨"a", [], [], [], Option.none⟩, ⟨"b", [], [], [], Option.none⟩]]]
    (by decide) (by decide) 0 0 0
    [[⟨"a", [], [], [], some 9500⟩, ⟨"b", [], [], [], some 9500⟩]]
    [⟨"a", [], [], [], some 9500⟩, ⟨"b", [], [], [], some 9500⟩]
    ⟨"a", [], [], [], some 9500⟩ 2
    (by decide) (by decide) (by decide) (by decide)


theorem pyRoundDiv_half (a b : Int) (hb : 0 < b) :
    -b ≤ 2 * (pyRoundDiv a b * b - a) ∧ 2 * (pyRoundDiv a b * b - a) ≤ b := by
  have h1 := Int.ediv_add_emod a b
  have h2 := Int.emod_nonneg a (ne_of_gt hb)
  have h3 := Int.emod_lt_of_pos a hb
  unfold pyRoundDiv
  split_ifs with hA hB hC <;> constructor <;> nlinarith [h1, h2, h3]

theorem resizePass_eq_map (u : Int) (l : List Shape)
    (hw : ∀ s ∈ l, s.isPicture = true → s.width ≠ 0) :
    resizePass u l
      = (l.map (fun s => if s.isPicture then resizeShape u s else s), false) := by
  induction l with
  | nil => rfl
  | cons s rest ih =>
    have ih' := ih (fun x hx => hw x (List.mem_cons_of_mem _ hx))
    cases hp : s.isPicture with
    | false => simp [resizePass, hp, ih']
    | true =>
      have hz : (s.width == 0) = false :=
        beq_eq_false_iff_ne.mpr (hw s (List.mem_cons_self ..) hp)
      simp [resizePass, hp, hz, ih']

theorem resizeMap_width (u : Int) (l : List Shape) :
    ∀ p ∈ l.map (fun s => if s.isPicture then resizeShape u s else s),
      p.isPicture = true → p.width = u := by
  intro p hp hpic
  obtain ⟨s, hs, rfl⟩ := List.mem_map.mp hp
  cases hq : s.isPicture with
  | false => simp [hq] at hpic
  | true => simp [hq, resizeShape]

theorem c8_aux (secs : List Sect) :
    ∀ (sec : Sect) (shapes : List Shape), secs.getLast? = some sec →
      (∀ s ∈ secs, 0 < usableWidthEmu s) →
      (∀ p ∈ shapes, p.isPicture = true → 0 < p.width) →
      (autofitImages secs shapes).2 = false
      ∧ ∀ p ∈ (autofitImages secs shapes).1,
          p.isPicture = true → p.width = usableWidthEmu sec := by
  induction secs with
  | nil => intro sec shapes h; simp at h
  | cons sec1 rest ih =>
    intro sec shapes hlast hpos hw
    have hz : ∀ s ∈ shapes, s.isPicture = true → s.width ≠ 0 :=
      fun s hs hp => ne_of_gt (hw s hs hp)
    have hpass := resizePass_eq_map (usableWidthEmu sec1) shapes hz
    cases rest with
    | nil =>
      have hsec : sec1 = sec := by simpa using hlast
      subst hsec
      refine ⟨?_, ?_⟩
      · simp [autofitImages, hpass]
      · intro p hp
        simp only [autofitImages, hpass] at hp ⊢
        exact resizeMap_width (usableWidthEmu sec1) shapes p hp
    | cons sec2 rest2 =>
      have hlast2 : (sec2 :: rest2).getLast? = some sec := by
        simpa [List.getLast?_cons_cons] using hlast
      have hpos2 : ∀ s ∈ sec2 :: rest2, 0 < usableWidthEmu s :=
        fun s hs => hpos s (List.mem_cons_of_mem _ hs)
      have hw2 : ∀ p ∈ shapes.map
          (fun s => if s.isPicture then resizeShape (usableWidthEmu sec1) s else s),
          p.isPicture = true → 0 < p.width := by
        intro p hp hpic
        rw [resizeMap_width (usableWidthEmu sec1) shapes p hp hpic]
        exact hpos sec1 (List.mem_cons_self ..)
      have ihr := ih sec _ hlast2 hpos2 hw2
      simpa [autofitImages, hpass] using ihr

/-- C8 amended. With every section's usable width positive and every
picture's width positive, the image autofit stage raises nothing, and
every picture ends with width equal to the usable content width of the
LAST section (the loop resizes once per section in order, so the final
pass governs — not the first, "authoritative" section).  For a
single-section document the stage maps every picture to width
`usable` and height `round(usable * h / w)` computed from its intrinsic
size, and that height is within half a width-unit of the exact
aspect-preserving value: `-w ≤ 2*(new_height*w - usable*h) ≤ w`. -/
theorem c8_last_section_governs (secs : List Sect) (shapes : List Shape)
    (sec : Sect) (hlast : secs.getLast? = some sec)
    (hpos : ∀ s ∈ secs, 0 < usableWidthEmu s)
    (hw : ∀ p ∈ shapes, p.isPicture = true → 0 < p.width) :
    (autofitImages secs shapes).2 = false
    ∧ (∀ p ∈ (autofitImages secs shapes).1,
        p.isPicture = true → p.width = usableWidthEmu sec)
    ∧ (secs = [sec] →
        (autofitImages secs shapes).1
          = shapes.map
              (fun s => if s.isPicture then resizeShape (usableWidthEmu sec) s else s)
        ∧ ∀ p ∈ shapes, p.isPicture = true →
            -(p.width) ≤ 2 * ((resizeShape (usableWidthEmu sec) p).height * p.width
                - usableWidthEmu sec * p.height)
            ∧ 2 * ((resizeShape (usableWidthEmu sec) p).height * p.width
                - usableWidthEmu sec * p.height) ≤ p.width) := by
  obtain ⟨hA, hB⟩ := c8_aux secs sec shapes hlast hpos hw
  refine ⟨hA, hB, ?_⟩
  intro heq
  subst heq
  have hz : ∀ s ∈ shapes, s.isPicture = true → s.width ≠ 0 :=
    fun s hs hp => ne_of_gt (hw s hs hp)
  have hpass := resizePass_eq_map (usableWidthEmu sec) shapes hz
  refine ⟨by simp [autofitImages, hpass], ?_⟩
  intro p hp hpic
  have hb := pyRoundDiv_half (usableWidthEmu sec * p.height) p.width (hw p hp hpic)
  simpa [resizeShape] using hb

/-- C8 counterexample. With two sections of usable widths 100 and 50, a
4×2 picture ends at width 50 — the usable width of the last section —
not 100, the usable width of the first ("governing") section. -/
theorem c8_counterexample :
    (autofitImages
        [⟨some 500, some 200, some 200⟩, ⟨some 450, some 200, some 200⟩]
        [⟨true, 4, 2⟩]).1 = [⟨true, 50, 25⟩]
    ∧ usableWidthEmu ⟨some 500, some 200, some 200⟩ = 100
    ∧ (50 : Int) ≠ usableWidthEmu ⟨some 500, some 200, some 200⟩ := by
  refine ⟨by decide, by decide, by decide⟩

/-- C8 witness: one section of usable width 18000 and an intrinsic
1600×900 picture: the stage completes and renders it 18000×10125. -/
theorem c8_witness :
    (autofitImages [⟨some 20000, some 1000, some 1000⟩] [⟨true, 1600, 900⟩]).1
      = [⟨true, 18000, 10125⟩]
    ∧ (autofitImages [⟨some 20000, some 1000, some 1000⟩] [⟨true, 1600, 900⟩]).2
      = false := by
  have h := c8_last_section_governs [⟨some 20000, some 1000, some 1000⟩]
    [⟨true, 1600, 900⟩] ⟨some 20000, some 1000, some 1000⟩ rfl
    (by decide) (by decide)
  refine ⟨?_, h.1⟩
  rw [(h.2.2 rfl).1]
  decide

end MD
